import Mathlib

/-!
Shallow embedding of the Facebook ad campaign analysis notebook
(`full_facebook_ad_project.ipynb`) and proofs about its pipeline:
CTR derivation, seeded A/B variant assignment, per-variant aggregation,
two-proportion z-test with its 0.05 decision rule, label encoding of the
categorical features, and the 80/20 train/test split.
-/

namespace FacebookAds

open MeasureTheory intervalIntegral Set

/-- One row of the campaign table loaded from `facebook_ads.csv`: the original
columns `Age`, `Gender`, `Impressions`, `Clicks`, `Spend`. -/
structure AdRecord where
  age : String
  gender : String
  impressions : Nat
  clicks : Nat
  spend : Rat
deriving DecidableEq

/-- Result of pandas/NumPy float true-division of two nonnegative counts:
a finite rational value, NaN (for 0/0), or positive infinity (for c/0 with
c > 0). Exact rationals stand in for IEEE doubles; the claims are about the
exact quotient and about the unguarded zero-denominator cases. -/
inductive DivResult where
  | val : Rat → DivResult
  | nan : DivResult
  | inf : DivResult
deriving DecidableEq

/-- Division of counts with pandas float semantics: `num / den` when
`den > 0`, NaN when `0 / 0`, and +infinity when `num > 0` and `den = 0`. -/
def fdiv (num den : Nat) : DivResult :=
  if den = 0 then (if num = 0 then DivResult.nan else DivResult.inf)
  else DivResult.val ((num : Rat) / (den : Rat))

/-- Per-record click-through rate, `df['CTR'] = df['Clicks'] / df['Impressions']`. -/
def recordCTR (r : AdRecord) : DivResult :=
  fdiv r.clicks r.impressions

/-- The derived `CTR` column: the elementwise division applied to every row. -/
def addCTR (recs : List AdRecord) : List DivResult :=
  recs.map recordCTR

/-- The two simulated ad variants. -/
inductive Variant where
  | A : Variant
  | B : Variant
deriving DecidableEq

/-- Printed form of a variant, the strings stored in the `ad_variant` column. -/
def variantStr : Variant → String
  | Variant.A => "A"
  | Variant.B => "B"

/-- The fixed seed of the notebook, `np.random.seed(42)`. -/
def theSeed : Nat := 42

/-- Embedding of `np.random.seed(seed)` followed by
`np.random.choice(['A', 'B'], size=n)`: the seeded global generator is
abstracted as a function `gen` from the seed and the draw index to the drawn
element of `['A', 'B']`; seeding makes every draw a function of the seed and
of its position, so the whole assignment is determined by `gen`, the seed and
the number of rows. -/
def assignVariants (gen : Nat → Nat → Variant) (seed n : Nat) : List Variant :=
  (List.range n).map (gen seed)

/-- Rows of the table carrying their `ad_variant` label (the zip of the label
column with the original columns). -/
abbrev LabeledRow : Type := Variant × AdRecord

/-- Records of one variant group, `df.groupby('ad_variant')`: the rows whose
label equals `v`. -/
def groupRows (v : Variant) (rows : List LabeledRow) : List AdRecord :=
  (rows.filter (fun p => p.1 = v)).map Prod.snd

/-- Summed `Impressions` of a variant group (`'Impressions': 'sum'`). -/
def groupImpressions (v : Variant) (rows : List LabeledRow) : Nat :=
  ((groupRows v rows).map AdRecord.impressions).sum

/-- Summed `Clicks` of a variant group (`'Clicks': 'sum'`). -/
def groupClicks (v : Variant) (rows : List LabeledRow) : Nat :=
  ((groupRows v rows).map AdRecord.clicks).sum

/-- Derived group CTR, `grouped['CTR'] = grouped['Clicks'] / grouped['Impressions']`. -/
def groupCTR (v : Variant) (rows : List LabeledRow) : DivResult :=
  fdiv (groupClicks v rows) (groupImpressions v rows)

/-- Total `Impressions` over the whole table. -/
def totalImpressions (rows : List LabeledRow) : Nat :=
  (rows.map (fun p => p.2.impressions)).sum

/-- Total `Clicks` over the whole table. -/
def totalClicks (rows : List LabeledRow) : Nat :=
  (rows.map (fun p => p.2.clicks)).sum

/-- Cumulative distribution function of the standard normal law: the integral
of the Gaussian density with mean 0 and variance 1 over `(-∞, x]`. -/
noncomputable def normalCDF (x : ℝ) : ℝ :=
  ∫ t in Iic x, ProbabilityTheory.gaussianPDFReal 0 1 t

/-- Embedding of `statsmodels.stats.proportion.proportions_ztest` on two
samples with the default two-sided alternative and pooled variance: returns
the z-statistic and the p-value. `cA, cB` are the click counts, `nA, nB` the
observation counts. -/
noncomputable def proportions_ztest (cA cB nA nB : ℝ) : ℝ × ℝ :=
  let pPooled := (cA + cB) / (nA + nB)
  let varPooled := pPooled * (1 - pPooled) * (1 / nA + 1 / nB)
  let z := (cA / nA - cB / nB) / Real.sqrt varPooled
  (z, 2 * (1 - normalCDF |z|))

/-- Decision rule of the notebook: `if pval < 0.05`, the difference in CTR is
reported as statistically significant. -/
def significantDiff (cA cB nA nB : ℝ) : Prop :=
  (proportions_ztest cA cB nA nB).2 < 0.05

/-- Scenario table of the end-to-end example: 1000 rows, `Impressions`
uniformly 100; 500 rows in group A with 10 clicks each (empirical CTR 0.10)
and 500 rows in group B with 15 clicks each (empirical CTR 0.15). -/
def scenarioRows : List LabeledRow :=
  List.replicate 500 (Variant.A, ⟨"25-34", "M", 100, 10, 1⟩)
    ++ List.replicate 500 (Variant.B, ⟨"25-34", "F", 100, 15, 1⟩)

/-- Embedding of `sklearn.preprocessing.LabelEncoder.fit`: the fitted
vocabulary `classes_` is `np.unique(column)`, the distinct observed values in
increasing (lexicographic) order. -/
def fitClasses (xs : List String) : List String :=
  List.insertionSort (· ≤ ·) xs.dedup

/-- Embedding of `LabelEncoder.transform` on one value: the index of the value
in the sorted fitted vocabulary. -/
def labelEncode (classes : List String) (v : String) : Nat :=
  classes.indexOf v

/-- Embedding of `LabelEncoder.inverse_transform` on one code: the vocabulary
entry at that index. -/
def labelDecode (classes : List String) (i : Nat) : String :=
  classes.getD i ""

/-- A whole column transformed with one fitted encoder. -/
def transformColumn (classes : List String) (xs : List String) : List Nat :=
  xs.map (labelEncode classes)

/-- Embedding of `sklearn.model_selection.train_test_split` with
`test_size=0.2`: the number of evaluation samples, `ceil(0.2 * n)`. -/
def nTest (n : Nat) : Nat := (n + 4) / 5

/-- Evaluation indices of the split: the first `nTest n` entries of the seeded
shuffle `perm` of the row indices (`random_state=42` determines `perm`). -/
def testIndices (perm : List Nat) (n : Nat) : List Nat :=
  perm.take (nTest n)

/-- Training indices of the split: the remaining entries of the shuffle. -/
def trainIndices (perm : List Nat) (n : Nat) : List Nat :=
  perm.drop (nTest n)

/-- NumPy fancy indexing `xs[idx]`: the rows of `xs` at the given indices.
The default `d` is irrelevant whenever every index is in range, which the
split guarantees. -/
def selectRows (xs : List α) (idx : List Nat) (d : α) : List α :=
  idx.map (fun i => xs.getD i d)

/-- The shared table: the original columns plus the derived columns appended
during the analysis (empty until their stage has run). -/
structure Table where
  recs : List AdRecord
  ctrCol : List DivResult
  variantCol : List Variant
  clickedCol : List Nat

/-- Loading the CSV: only the original columns are present. -/
def loadTable (recs : List AdRecord) : Table :=
  ⟨recs, [], [], []⟩

/-- EDA stage, `df['CTR'] = df['Clicks'] / df['Impressions']`. -/
def ctrStage (t : Table) : Table :=
  { t with ctrCol := addCTR t.recs }

/-- A/B stage, `df['ad_variant'] = np.random.choice(['A','B'], size=len(df))`
after `np.random.seed(42)`. -/
def variantStage (gen : Nat → Nat → Variant) (t : Table) : Table :=
  { t with variantCol := assignVariants gen theSeed t.recs.length }

/-- Target stage, `df['Clicked'] = (df['Clicks'] > 0).astype(int)`. -/
def clickedStage (t : Table) : Table :=
  { t with clickedCol := t.recs.map (fun r => if 0 < r.clicks then 1 else 0) }

/-- Encoding stage: `df_model = df[features + ['Clicked']].copy()` followed by
one `LabelEncoder.fit_transform` per feature column. It builds a separate
frame of integer codes (features `Gender`, `Age`, `ad_variant` and the label
`Clicked`) and leaves the shared table untouched. -/
def encodeStage (t : Table) : List (Nat × Nat × Nat) × List Nat :=
  let genders := t.recs.map AdRecord.gender
  let ages := t.recs.map AdRecord.age
  let variants := t.variantCol.map variantStr
  let gCodes := transformColumn (fitClasses genders) genders
  let aCodes := transformColumn (fitClasses ages) ages
  let vCodes := transformColumn (fitClasses variants) variants
  (gCodes.zip (aCodes.zip vCodes), t.clickedCol)

/-- The notebook's sequence of table mutations: CTR column, variant column,
Clicked column, in source order. -/
def pipeline (gen : Nat → Nat → Variant) (recs : List AdRecord) : Table :=
  clickedStage (variantStage gen (ctrStage (loadTable recs)))

/-- The pipeline followed by the encoding stage: the final table state
together with the model frame the encoder produced. -/
def fullRun (gen : Nat → Nat → Variant) (recs : List AdRecord) :
    Table × (List (Nat × Nat × Nat) × List Nat) :=
  (pipeline gen recs, encodeStage (pipeline gen recs))

/-- Counterexample row for the aggregate-CTR invariant: a record with zero
impressions and zero clicks satisfies `Clicks ≤ Impressions`, yet its group's
aggregate CTR is `0 / 0 = NaN`. -/
def c4Row : LabeledRow :=
  (Variant.A, ⟨"30-34", "M", 0, 0, 0⟩)

/-- Sample record used to instantiate universally quantified theorems. -/
def sampleRow : AdRecord :=
  ⟨"18-24", "F", 10, 3, 1⟩

/-- Second sample record, differing from `sampleRow` in every column. -/
def sampleRow2 : AdRecord :=
  ⟨"35-44", "M", 7, 0, 2⟩

/-- Helper: the `Clicks`-or-`Impressions` sum of the whole table splits into
the two per-variant group sums, because every row carries exactly one of the
two labels. -/
theorem group_sum_split (f : AdRecord → Nat) (rows : List LabeledRow) :
    ((groupRows Variant.A rows).map f).sum + ((groupRows Variant.B rows).map f).sum
      = (rows.map (fun p => f p.2)).sum := by
  induction rows with
  | nil => simp [groupRows]
  | cons p rest ih =>
    obtain ⟨v, r⟩ := p
    simp only [groupRows] at ih ⊢
    cases v <;> simp [List.filter_cons] at ih ⊢ <;> omega

/-- C3: for every record of the table, the derived `CTR` column holds
`Clicks / Impressions` when `Impressions > 0`; when `Impressions = 0` the
value is NaN or infinity rather than an error, the computation being total
and unguarded. -/
theorem ctr_column_correct (recs : List AdRecord) (i : Nat) (r : AdRecord)
    (hr : recs[i]? = some r) :
    (addCTR recs)[i]? = some (recordCTR r)
    ∧ (0 < r.impressions →
        recordCTR r = DivResult.val ((r.clicks : ℚ) / (r.impressions : ℚ)))
    ∧ (r.impressions = 0 →
        recordCTR r = DivResult.nan ∨ recordCTR r = DivResult.inf) := by
  refine ⟨?_, ?_, ?_⟩
  · simp [addCTR, hr]
  · intro h
    simp [recordCTR, fdiv, Nat.pos_iff_ne_zero.mp h]
  · intro h
    by_cases hc : r.clicks = 0
    · exact Or.inl (by simp [recordCTR, fdiv, h, hc])
    · exact Or.inr (by simp [recordCTR, fdiv, h, hc])

/-- Witness for `ctr_column_correct` at a concrete one-row table. -/
theorem ctr_column_correct_witness :
    (addCTR [sampleRow])[0]? = some (DivResult.val ((3 : ℚ) / 10)) := by
  have h := ctr_column_correct [sampleRow] 0 sampleRow rfl
  rw [h.1, h.2.1 (by decide)]
  norm_num [sampleRow]

/-- C10: the group-by-variant aggregation is a partition homomorphism: the
two groups' summed `Impressions` (resp. `Clicks`) add up to the table totals,
every row being counted in exactly one group. -/
theorem groupby_partition_homomorphism (rows : List LabeledRow) :
    groupImpressions Variant.A rows + groupImpressions Variant.B rows = totalImpressions rows
    ∧ groupClicks Variant.A rows + groupClicks Variant.B rows = totalClicks rows :=
  ⟨group_sum_split AdRecord.impressions rows, group_sum_split AdRecord.clicks rows⟩

/-- C6: with the generator abstracted as a deterministic function of the seed
and the draw position, variant assignment is reproducible: it depends only on
the seed and the number (and order) of input rows, has one label per row, and
every label is drawn from the two-element set. -/
theorem variant_assignment_deterministic (gen : Nat → Nat → Variant)
    (df1 df2 : List AdRecord) (h : df1.length = df2.length) :
    assignVariants gen theSeed df1.length = assignVariants gen theSeed df2.length
    ∧ (assignVariants gen theSeed df1.length).length = df1.length
    ∧ ∀ v ∈ assignVariants gen theSeed df1.length, v = Variant.A ∨ v = Variant.B := by
  refine ⟨by rw [h], by simp [assignVariants], ?_⟩
  intro v _
  cases v
  · exact Or.inl rfl
  · exact Or.inr rfl

/-- Witness for `variant_assignment_deterministic`: two distinct one-row
tables receive the same label sequence. -/
theorem variant_assignment_deterministic_witness :
    assignVariants (fun _ _ => Variant.A) theSeed [sampleRow].length
      = assignVariants (fun _ _ => Variant.A) theSeed [sampleRow2].length :=
  (variant_assignment_deterministic (fun _ _ => Variant.A)
    [sampleRow] [sampleRow2] rfl).1

/-- C8: the original columns survive the whole pipeline unchanged; the only
mutations of the shared table are the appended derived columns `CTR`,
`ad_variant` and `Clicked`, and the encoding stage writes its integer codes
into a separate model frame, not into the shared table. -/
theorem original_columns_preserved (gen : Nat → Nat → Variant) (recs : List AdRecord) :
    (fullRun gen recs).1.recs = recs
    ∧ (fullRun gen recs).1.ctrCol = addCTR recs
    ∧ (fullRun gen recs).1.variantCol = assignVariants gen theSeed recs.length
    ∧ (fullRun gen recs).1.clickedCol = recs.map (fun r => if 0 < r.clicks then 1 else 0)
    ∧ (fullRun gen recs).2 = encodeStage (pipeline gen recs) :=
  ⟨rfl, rfl, rfl, rfl, rfl⟩

/-- C4 counterexample: a table whose single record has
`Clicks = 0 ≤ 0 = Impressions` satisfies the claimed precondition, yet the
aggregate CTR of its group is NaN, which does not lie in `[0, 1]`. -/
theorem grouped_ctr_counterexample :
    (∀ p ∈ [c4Row], p.2.clicks ≤ p.2.impressions)
    ∧ groupCTR Variant.A [c4Row] = DivResult.nan
    ∧ ¬ (∃ q : ℚ, groupCTR Variant.A [c4Row] = DivResult.val q ∧ 0 ≤ q ∧ q ≤ 1) := by
  refine ⟨by decide, by decide, ?_⟩
  rintro ⟨q, hq, -, -⟩
  rw [show groupCTR Variant.A [c4Row] = DivResult.nan from by decide] at hq
  simp at hq

/-- C4 (amended): per-variant aggregation preserves `Clicks ≤ Impressions`,
and for every group whose summed `Impressions` is positive the aggregate CTR
is a rational in `[0, 1]`. -/
theorem grouped_invariant (rows : List LabeledRow) (v : Variant)
    (h : ∀ p ∈ rows, p.2.clicks ≤ p.2.impressions) :
    groupClicks v rows ≤ groupImpressions v rows
    ∧ (0 < groupImpressions v rows →
        ∃ q : ℚ, groupCTR v rows = DivResult.val q ∧ 0 ≤ q ∧ q ≤ 1) := by
  have hle : groupClicks v rows ≤ groupImpressions v rows := by
    unfold groupClicks groupImpressions
    refine List.sum_le_sum ?_
    intro r hr
    unfold groupRows at hr
    obtain ⟨p, hpf, rfl⟩ := List.mem_map.mp hr
    exact h p (List.mem_of_mem_filter hpf)
  refine ⟨hle, fun hpos => ?_⟩
  refine ⟨(groupClicks v rows : ℚ) / (groupImpressions v rows : ℚ), ?_, ?_, ?_⟩
  · unfold groupCTR fdiv
    rw [if_neg (Nat.pos_iff_ne_zero.mp hpos)]
  · positivity
  · rw [div_le_one (by exact_mod_cast hpos)]
    exact_mod_cast hle

/-- Witness for `grouped_invariant` at a concrete one-row table. -/
theorem grouped_invariant_witness :
    groupClicks Variant.A [(Variant.A, sampleRow)]
        ≤ groupImpressions Variant.A [(Variant.A, sampleRow)]
    ∧ (0 < groupImpressions Variant.A [(Variant.A, sampleRow)] →
        ∃ q : ℚ, groupCTR Variant.A [(Variant.A, sampleRow)] = DivResult.val q
          ∧ 0 ≤ q ∧ q ≤ 1) :=
  grouped_invariant [(Variant.A, sampleRow)] Variant.A (by decide)

/-- Helper: the standard normal density is an even function. -/
theorem gaussian_pdf_even (t : ℝ) :
    ProbabilityTheory.gaussianPDFReal 0 1 (-t) = ProbabilityTheory.gaussianPDFReal 0 1 t := by
  simp only [ProbabilityTheory.gaussianPDFReal]
  ring_nf

/-- Helper: the standard normal density is integrable on every set. -/
theorem integrableOn_gaussianPDF (s : Set ℝ) :
    IntegrableOn (ProbabilityTheory.gaussianPDFReal 0 1) s :=
  (ProbabilityTheory.integrable_gaussianPDFReal 0 1).integrableOn

/-- Helper: the CDF at `x` and the right tail mass at `x` add up to 1. -/
theorem normalCDF_add_tail (x : ℝ) :
    normalCDF x + ∫ t in Ioi x, ProbabilityTheory.gaussianPDFReal 0 1 t = 1 := by
  rw [normalCDF,
    integral_Iic_add_Ioi (integrableOn_gaussianPDF _) (integrableOn_gaussianPDF _)]
  exact ProbabilityTheory.integral_gaussianPDFReal_eq_one 0 one_ne_zero

/-- Helper: tail masses are nonnegative. -/
theorem gaussian_tail_nonneg (x : ℝ) :
    0 ≤ ∫ t in Ioi x, ProbabilityTheory.gaussianPDFReal 0 1 t :=
  setIntegral_nonneg measurableSet_Ioi fun t _ => ProbabilityTheory.gaussianPDFReal_nonneg 0 1 t

/-- Helper: the standard normal CDF takes the value 1/2 at the mean. -/
theorem normalCDF_zero : normalCDF 0 = 1 / 2 := by
  have h1 := normalCDF_add_tail 0
  have h2 : (∫ t in Ioi (0 : ℝ), ProbabilityTheory.gaussianPDFReal 0 1 t) = normalCDF 0 := by
    rw [normalCDF]
    calc (∫ t in Ioi (0 : ℝ), ProbabilityTheory.gaussianPDFReal 0 1 t)
        = ∫ t in Ioi (0 : ℝ), ProbabilityTheory.gaussianPDFReal 0 1 (-t) := by
          refine (setIntegral_congr_fun measurableSet_Ioi fun t _ => ?_).symm
          exact gaussian_pdf_even t
      _ = ∫ t in Iic (-(0 : ℝ)), ProbabilityTheory.gaussianPDFReal 0 1 t :=
          integral_comp_neg_Ioi 0 _
      _ = ∫ t in Iic (0 : ℝ), ProbabilityTheory.gaussianPDFReal 0 1 t := by norm_num
  rw [h2] at h1
  linarith

/-- Helper: the standard normal CDF is monotone. -/
theorem normalCDF_mono {a b : ℝ} (h : a ≤ b) : normalCDF a ≤ normalCDF b := by
  rw [normalCDF, normalCDF]
  refine setIntegral_mono_set (integrableOn_gaussianPDF _) ?_ ?_
  · exact Filter.Eventually.of_forall fun t => ProbabilityTheory.gaussianPDFReal_nonneg 0 1 t
  · exact HasSubset.Subset.eventuallyLE (Iic_subset_Iic.mpr h)

/-- Helper: the CDF never exceeds 1. -/
theorem normalCDF_le_one (x : ℝ) : normalCDF x ≤ 1 := by
  have h1 := normalCDF_add_tail x
  have h2 := gaussian_tail_nonneg x
  linarith

/-- Helper: beyond 2, the standard normal density is dominated by `exp (-t)`. -/
theorem gaussian_pdf_le_exp {t : ℝ} (ht : 2 ≤ t) :
    ProbabilityTheory.gaussianPDFReal 0 1 t ≤ Real.exp (-t) := by
  have hsqrt : (1 : ℝ) ≤ Real.sqrt (2 * Real.pi * ((1 : NNReal) : ℝ)) := by
    rw [show (1 : ℝ) = Real.sqrt 1 from Real.sqrt_one.symm]
    refine Real.sqrt_le_sqrt ?_
    push_cast
    nlinarith [Real.pi_gt_three]
  have hexp : Real.exp (-(t - 0) ^ 2 / (2 * ((1 : NNReal) : ℝ))) ≤ Real.exp (-t) := by
    rw [Real.exp_le_exp]
    push_cast
    nlinarith
  calc ProbabilityTheory.gaussianPDFReal 0 1 t
      = (Real.sqrt (2 * Real.pi * ((1 : NNReal) : ℝ)))⁻¹
          * Real.exp (-(t - 0) ^ 2 / (2 * ((1 : NNReal) : ℝ))) := rfl
    _ ≤ 1 * Real.exp (-t) :=
        mul_le_mul (inv_le_one hsqrt) hexp (Real.exp_pos _).le zero_le_one
    _ = Real.exp (-t) := one_mul _

/-- Helper: the right tail mass beyond `x ≥ 2` is at most `exp (-x)`. -/
theorem gaussian_tail_le_exp {x : ℝ} (hx : 2 ≤ x) :
    (∫ t in Ioi x, ProbabilityTheory.gaussianPDFReal 0 1 t) ≤ Real.exp (-x) := by
  have hInt : IntegrableOn (fun t : ℝ => Real.exp (-t)) (Ioi x) := by
    have h := exp_neg_integrableOn_Ioi x (show (0 : ℝ) < 1 by norm_num)
    simpa using h
  calc (∫ t in Ioi x, ProbabilityTheory.gaussianPDFReal 0 1 t)
      ≤ ∫ t in Ioi x, Real.exp (-t) := by
        refine setIntegral_mono_on (integrableOn_gaussianPDF _) hInt measurableSet_Ioi ?_
        intro t ht
        exact gaussian_pdf_le_exp (hx.trans (le_of_lt ht))
    _ = Real.exp (-x) := integral_exp_neg_Ioi x

/-- Helper: `exp (-23)` is below 1/100. -/
theorem exp_neg_23_le : Real.exp (-23) ≤ 1 / 100 := by
  have h4 : (5 : ℝ) ≤ Real.exp 4 := by nlinarith [Real.add_one_le_exp (4 : ℝ)]
  have h19 : (20 : ℝ) ≤ Real.exp 19 := by nlinarith [Real.add_one_le_exp (19 : ℝ)]
  have h23 : (100 : ℝ) ≤ Real.exp 23 := by
    rw [show (23 : ℝ) = 4 + 19 by norm_num, Real.exp_add]
    nlinarith [Real.exp_pos (4 : ℝ), Real.exp_pos (19 : ℝ)]
  calc Real.exp (-23) = (Real.exp 23)⁻¹ := Real.exp_neg _
    _ ≤ (100 : ℝ)⁻¹ := inv_le_inv_of_le (by norm_num) h23
    _ = 1 / 100 := by norm_num

/-- Helper: the scenario z-statistic is at most `-23` in absolute value. -/
theorem scenario_absz_ge :
    (23 : ℝ) ≤ |(5000 / 50000 - 7500 / 50000 : ℝ)
      / Real.sqrt ((5000 + 7500) / (50000 + 50000) * (1 - (5000 + 7500) / (50000 + 50000))
          * (1 / 50000 + 1 / 50000))| := by
  have hArg : ((5000 + 7500) / (50000 + 50000) * (1 - (5000 + 7500) / (50000 + 50000))
      * (1 / 50000 + 1 / 50000) : ℝ) = 7 / 1600000 := by norm_num
  have hNum : (5000 / 50000 - 7500 / 50000 : ℝ) = -(1 / 20) := by norm_num
  rw [hArg, hNum]
  have hs0 : 0 < Real.sqrt (7 / 1600000 : ℝ) := Real.sqrt_pos.mpr (by norm_num)
  have hsle : Real.sqrt (7 / 1600000 : ℝ) ≤ 1 / 460 := by
    rw [show (1 / 460 : ℝ) = Real.sqrt ((1 / 460) ^ 2) from
      (Real.sqrt_sq (by norm_num)).symm]
    exact Real.sqrt_le_sqrt (by norm_num)
  rw [abs_div, abs_neg, abs_of_nonneg (by norm_num : (0 : ℝ) ≤ 1 / 20),
    abs_of_nonneg (Real.sqrt_nonneg _)]
  calc (23 : ℝ) = (1 / 20) / (1 / 460) := by norm_num
    _ ≤ (1 / 20) / Real.sqrt (7 / 1600000 : ℝ) :=
        div_le_div_of_nonneg_left (by norm_num) hs0 hsle

/-- Helper: the p-value of the scenario aggregates is below the threshold. -/
theorem scenario_pval_lt :
    (proportions_ztest 5000 7500 50000 50000).2 < 0.05 := by
  have hform : (proportions_ztest 5000 7500 50000 50000).2
      = 2 * (1 - normalCDF |(5000 / 50000 - 7500 / 50000 : ℝ)
          / Real.sqrt ((5000 + 7500) / (50000 + 50000) * (1 - (5000 + 7500) / (50000 + 50000))
              * (1 / 50000 + 1 / 50000))|) := rfl
  rw [hform]
  have h23 := scenario_absz_ge
  have hmono := normalCDF_mono h23
  have htail := normalCDF_add_tail 23
  have hle := gaussian_tail_le_exp (show (2 : ℝ) ≤ 23 by norm_num)
  have hexp := exp_neg_23_le
  have hcdf := normalCDF_le_one
    |(5000 / 50000 - 7500 / 50000 : ℝ)
      / Real.sqrt ((5000 + 7500) / (50000 + 50000) * (1 - (5000 + 7500) / (50000 + 50000))
          * (1 / 50000 + 1 / 50000))|
  have : (0.05 : ℝ) = 1 / 20 := by norm_num
  linarith

/-- Helper: group A of the scenario table has 5000 clicks in total. -/
theorem scenario_clicks_A : groupClicks Variant.A scenarioRows = 5000 := by
  unfold groupClicks groupRows scenarioRows
  rw [List.filter_append, List.filter_replicate, List.filter_replicate,
    if_pos (by decide), if_neg (by decide), List.append_nil,
    List.map_replicate, List.map_replicate, List.sum_replicate, smul_eq_mul]
  rfl

/-- Helper: group B of the scenario table has 7500 clicks in total. -/
theorem scenario_clicks_B : groupClicks Variant.B scenarioRows = 7500 := by
  unfold groupClicks groupRows scenarioRows
  rw [List.filter_append, List.filter_replicate, List.filter_replicate,
    if_neg (by decide), if_pos (by decide), List.nil_append,
    List.map_replicate, List.map_replicate, List.sum_replicate, smul_eq_mul]
  rfl

/-- Helper: group A of the scenario table has 50000 impressions in total. -/
theorem scenario_impressions_A : groupImpressions Variant.A scenarioRows = 50000 := by
  unfold groupImpressions groupRows scenarioRows
  rw [List.filter_append, List.filter_replicate, List.filter_replicate,
    if_pos (by decide), if_neg (by decide), List.append_nil,
    List.map_replicate, List.map_replicate, List.sum_replicate, smul_eq_mul]
  rfl

/-- Helper: group B of the scenario table has 50000 impressions in total. -/
theorem scenario_impressions_B : groupImpressions Variant.B scenarioRows = 50000 := by
  unfold groupImpressions groupRows scenarioRows
  rw [List.filter_append, List.filter_replicate, List.filter_replicate,
    if_neg (by decide), if_pos (by decide), List.nil_append,
    List.map_replicate, List.map_replicate, List.sum_replicate, smul_eq_mul]
  rfl

/-- C1: the embedded two-proportion z-test computes exactly the specified
pooled proportion, standard error, z-statistic, and two-sided p-value, the
latter taken under the standard normal CDF (the distribution function of
`gaussianReal 0 1`). -/
theorem ztest_formula (cA cB nA nB : ℝ) (hA : 0 < nA) (hB : 0 < nB)
    (hp0 : 0 < (cA + cB) / (nA + nB)) (hp1 : (cA + cB) / (nA + nB) < 1) :
    (proportions_ztest cA cB nA nB).1
        = (cA / nA - cB / nB)
          / Real.sqrt ((cA + cB) / (nA + nB) * (1 - (cA + cB) / (nA + nB)) * (1 / nA + 1 / nB))
    ∧ (proportions_ztest cA cB nA nB).2
        = 2 * (1 - normalCDF |(proportions_ztest cA cB nA nB).1|)
    ∧ ∀ y : ℝ, ProbabilityTheory.gaussianReal 0 1 (Iic y) = ENNReal.ofReal (normalCDF y) :=
  ⟨rfl, rfl, fun y => ProbabilityTheory.gaussianReal_apply_eq_integral 0 one_ne_zero (Iic y)⟩

/-- Witness for `ztest_formula` at the concrete sample `cA = cB = 1`,
`nA = nB = 2`. -/
theorem ztest_formula_witness :
    (proportions_ztest 1 1 2 2).1
      = ((1 : ℝ) / 2 - 1 / 2)
        / Real.sqrt ((1 + 1) / (2 + 2) * (1 - (1 + 1) / (2 + 2)) * (1 / 2 + 1 / 2)) :=
  (ztest_formula 1 1 2 2 (by norm_num) (by norm_num) (by norm_num) (by norm_num)).1

/-- C2: the verdict is exactly `p-value < 0.05`; for two groups with identical
CTR and a nondegenerate pooled proportion the p-value equals 1 ≥ 0.05; and on
the end-to-end scenario table (1000 rows, impressions uniformly 100, group
CTRs 0.10 and 0.15 over 500 rows each) the p-value is below 0.05 and the
significance verdict holds. -/
theorem ztest_decision_rule :
    (∀ cA cB nA nB : ℝ,
      significantDiff cA cB nA nB ↔ (proportions_ztest cA cB nA nB).2 < 0.05)
    ∧ (∀ cA cB nA nB : ℝ, 0 < nA → 0 < nB → cA / nA = cB / nB →
        0 < (cA + cB) / (nA + nB) → (cA + cB) / (nA + nB) < 1 →
        0.05 ≤ (proportions_ztest cA cB nA nB).2)
    ∧ groupCTR Variant.A scenarioRows = DivResult.val (1 / 10)
    ∧ groupCTR Variant.B scenarioRows = DivResult.val (3 / 20)
    ∧ (proportions_ztest (groupClicks Variant.A scenarioRows)
        (groupClicks Variant.B scenarioRows) (groupImpressions Variant.A scenarioRows)
        (groupImpressions Variant.B scenarioRows)).2 < 0.05
    ∧ significantDiff (groupClicks Variant.A scenarioRows)
        (groupClicks Variant.B scenarioRows) (groupImpressions Variant.A scenarioRows)
        (groupImpressions Variant.B scenarioRows) := by
  have hCA := scenario_clicks_A
  have hCB := scenario_clicks_B
  have hIA := scenario_impressions_A
  have hIB := scenario_impressions_B
  have hscen : (proportions_ztest (groupClicks Variant.A scenarioRows)
      (groupClicks Variant.B scenarioRows) (groupImpressions Variant.A scenarioRows)
      (groupImpressions Variant.B scenarioRows)).2 < 0.05 := by
    rw [hCA, hCB, hIA, hIB]
    push_cast
    exact scenario_pval_lt
  refine ⟨fun _ _ _ _ => Iff.rfl, ?_, ?_, ?_, hscen, hscen⟩
  · intro cA cB nA nB hA hB hEq hp0 hp1
    have hz : (proportions_ztest cA cB nA nB).1 = 0 := by
      show (cA / nA - cB / nB)
          / Real.sqrt ((cA + cB) / (nA + nB) * (1 - (cA + cB) / (nA + nB))
              * (1 / nA + 1 / nB)) = 0
      rw [sub_eq_zero.mpr hEq, zero_div]
    have hp : (proportions_ztest cA cB nA nB).2
        = 2 * (1 - normalCDF |(proportions_ztest cA cB nA nB).1|) := rfl
    rw [hp, hz, abs_zero, normalCDF_zero]
    norm_num
  · rw [show groupCTR Variant.A scenarioRows
        = fdiv (groupClicks Variant.A scenarioRows) (groupImpressions Variant.A scenarioRows)
      from rfl, hCA, hIA]
    norm_num [fdiv]
  · rw [show groupCTR Variant.B scenarioRows
        = fdiv (groupClicks Variant.B scenarioRows) (groupImpressions Variant.B scenarioRows)
      from rfl, hCB, hIB]
    norm_num [fdiv]

/-- Witness for `ztest_decision_rule`: the identical-CTR branch at
`cA = cB = 1`, `nA = nB = 2`. -/
theorem ztest_decision_rule_witness :
    (0.05 : ℝ) ≤ (proportions_ztest 1 1 2 2).2 :=
  ztest_decision_rule.2.1 1 1 2 2 (by norm_num) (by norm_num) (by norm_num)
    (by norm_num) (by norm_num)

/-- Helper: the fitted vocabulary contains exactly the observed values of the
column it was fitted on. -/
theorem mem_fitClasses {v : String} {xs : List String} : v ∈ xs ↔ v ∈ fitClasses xs := by
  rw [fitClasses, (List.perm_insertionSort (· ≤ ·) xs.dedup).mem_iff, List.mem_dedup]

/-- C5: the fitted encoder's vocabulary is the deterministically (lexicographically)
sorted list of distinct observed categories; encoding is injective on the
observed values; the same fitted mapping is applied to every record of the
column; and decoding recovers every vocabulary entry (round-trip). -/
theorem label_encoder_correct (xs : List String) :
    (fitClasses xs).Sorted (· ≤ ·)
    ∧ (fitClasses xs).Nodup
    ∧ (∀ v, v ∈ xs ↔ v ∈ fitClasses xs)
    ∧ (∀ a ∈ xs, ∀ b ∈ xs,
        labelEncode (fitClasses xs) a = labelEncode (fitClasses xs) b → a = b)
    ∧ (∀ i : Nat,
        (transformColumn (fitClasses xs) xs)[i]? = xs[i]?.map (labelEncode (fitClasses xs)))
    ∧ (∀ v ∈ fitClasses xs,
        labelDecode (fitClasses xs) (labelEncode (fitClasses xs) v) = v) := by
  have hperm := List.perm_insertionSort (· ≤ ·) xs.dedup
  have hmem : ∀ v : String, v ∈ xs ↔ v ∈ fitClasses xs := fun _ => mem_fitClasses
  refine ⟨List.sorted_insertionSort _ _, hperm.nodup_iff.mpr (List.nodup_dedup xs), hmem,
    ?_, ?_, ?_⟩
  · intro a ha b hb h
    exact (List.indexOf_inj ((hmem a).mp ha) ((hmem b).mp hb)).mp h
  · intro i
    simp [transformColumn]
  · intro v hv
    have hlt := List.indexOf_lt_length.mpr hv
    rw [labelDecode, labelEncode, List.getD_eq_getElem _ _ hlt]
    simpa using List.indexOf_get hlt

/-- Witness for `label_encoder_correct`: round-trip on the column
`["B", "A", "B"]` at the category `"A"`. -/
theorem label_encoder_correct_witness :
    labelDecode (fitClasses ["B", "A", "B"])
      (labelEncode (fitClasses ["B", "A", "B"]) "A") = "A" :=
  (label_encoder_correct ["B", "A", "B"]).2.2.2.2.2 "A"
    (((label_encoder_correct ["B", "A", "B"]).2.2.1 "A").mp (by decide))

/-- Helper: NumPy-style row selection distributes over `zip` when every index
is in range for both columns. -/
theorem selectRows_zip {α β : Type} (X : List α) (y : List β) (idx : List Nat)
    (dX : α) (dy : β) (h : ∀ i ∈ idx, i < X.length ∧ i < y.length) :
    selectRows (X.zip y) idx (dX, dy)
      = (selectRows X idx dX).zip (selectRows y idx dy) := by
  induction idx with
  | nil => rfl
  | cons i rest ih =>
    have hi := h i (List.mem_cons_self i rest)
    have hzip : i < (X.zip y).length := by
      rw [List.length_zip]
      omega
    have hrest : ∀ j ∈ rest, j < X.length ∧ j < y.length :=
      fun j hj => h j (List.mem_cons_of_mem _ hj)
    simp only [selectRows, List.map_cons, List.zip_cons_cons]
    congr 1
    · rw [List.getD_eq_getElem _ _ hzip, List.getD_eq_getElem _ _ hi.1,
        List.getD_eq_getElem _ _ hi.2, List.getElem_zip]
    · exact ih hrest

/-- C7: the seeded split sends `ceil(n/5)` rows to evaluation and the rest to
training (exactly 20 and 80 percent when 5 divides n); every row index lands
in exactly one side; and features and labels are selected by the same index
list, so they stay aligned. -/
theorem train_test_split_correct (n : Nat) (perm : List Nat)
    (hperm : perm.Perm (List.range n)) :
    (testIndices perm n).length = nTest n
    ∧ (trainIndices perm n).length = n - nTest n
    ∧ (∀ i, i < n → (testIndices perm n).count i + (trainIndices perm n).count i = 1)
    ∧ (5 ∣ n → 5 * (testIndices perm n).length = n
        ∧ 5 * (trainIndices perm n).length = 4 * n)
    ∧ (∀ (X : List (Nat × Nat × Nat)) (y : List Nat) (dX : Nat × Nat × Nat) (dy : Nat),
        X.length = n → y.length = n →
        (selectRows (X.zip y) (testIndices perm n) (dX, dy)
            = (selectRows X (testIndices perm n) dX).zip
                (selectRows y (testIndices perm n) dy)
          ∧ selectRows (X.zip y) (trainIndices perm n) (dX, dy)
            = (selectRows X (trainIndices perm n) dX).zip
                (selectRows y (trainIndices perm n) dy))) := by
  have hlen : perm.length = n := by
    rw [hperm.length_eq, List.length_range]
  have hmemlt : ∀ i ∈ perm, i < n := fun i hi => List.mem_range.mp (hperm.mem_iff.mp hi)
  have hTestLen : (testIndices perm n).length = nTest n := by
    rw [testIndices, List.length_take, hlen]
    unfold nTest
    omega
  have hTrainLen : (trainIndices perm n).length = n - nTest n := by
    rw [trainIndices, List.length_drop, hlen]
  have hcount : ∀ i, i < n →
      (testIndices perm n).count i + (trainIndices perm n).count i = 1 := by
    intro i hi
    have h1 : testIndices perm n ++ trainIndices perm n = perm :=
      List.take_append_drop _ _
    have h2 : perm.count i = 1 :=
      (hperm.count_eq i).trans
        (List.count_eq_one_of_mem (List.nodup_range n) (List.mem_range.mpr hi))
    rw [← h1, List.count_append] at h2
    exact h2
  have hvalidTest : ∀ i ∈ testIndices perm n, i < n :=
    fun i hi => hmemlt i (List.take_subset _ _ hi)
  have hvalidTrain : ∀ i ∈ trainIndices perm n, i < n :=
    fun i hi => hmemlt i (List.drop_subset _ _ hi)
  refine ⟨hTestLen, hTrainLen, hcount, ?_, ?_⟩
  · intro h5
    have h1 := hTestLen
    have h2 := hTrainLen
    unfold nTest at h1 h2
    exact ⟨by omega, by omega⟩
  · intro X y dX dy hX hy
    constructor
    · exact selectRows_zip X y _ dX dy
        (fun i hi => ⟨hX ▸ hvalidTest i hi, hy ▸ hvalidTest i hi⟩)
    · exact selectRows_zip X y _ dX dy
        (fun i hi => ⟨hX ▸ hvalidTrain i hi, hy ▸ hvalidTrain i hi⟩)

/-- Witness for `train_test_split_correct`: the shuffle `[3, 0, 4, 1, 2]` of
5 rows puts index 0 in exactly one side of the split. -/
theorem train_test_split_correct_witness :
    (testIndices [3, 0, 4, 1, 2] 5).count 0 + (trainIndices [3, 0, 4, 1, 2] 5).count 0 = 1 :=
  (train_test_split_correct 5 [3, 0, 4, 1, 2] (by decide)).2.2.1 0 (by decide)

/-- C9: because every encoder is fitted on the full column before the split is
taken, every categorical value appearing in the evaluation subset lies in the
fitted vocabulary, so the unseen-category failure of `transform` is
unreachable in this pipeline. -/
theorem no_unseen_categories (xs : List String) (perm : List Nat) (d : String)
    (hperm : perm.Perm (List.range xs.length)) :
    ∀ v ∈ selectRows xs (testIndices perm xs.length) d, v ∈ fitClasses xs := by
  intro v hv
  obtain ⟨i, hi, rfl⟩ := List.mem_map.mp hv
  have hin : i ∈ perm := List.take_subset _ _ hi
  have hlt : i < xs.length := List.mem_range.mp (hperm.mem_iff.mp hin)
  rw [List.getD_eq_getElem _ _ hlt]
  exact mem_fitClasses.mp (List.getElem_mem hlt)

/-- Witness for `no_unseen_categories`: the evaluation half of the column
`["B", "A"]` under the shuffle `[1, 0]` only holds fitted categories. -/
theorem no_unseen_categories_witness :
    "A" ∈ fitClasses ["B", "A"] :=
  no_unseen_categories ["B", "A"] [1, 0] "" (by decide) "A" (by decide)

end FacebookAds
